import Mathlib

/-!
Verification development for the marketing-request form application
(`src/app.py`).

The application collects a marketing request, validates the raw input,
appends the canonical record to a flat CSV store (`requests.csv`,
created with a header row on first write) and hands the user a
downloadable CSV artifact of the same record.

The shallow embedding below models:

* the helper functions `clean_phone` and the `EMAIL_RE` regular
  expression match (including Python's behaviour that the `$` anchor
  also matches just before a single trailing newline);
* Python `str.strip` (`pyStrip`) and the `x or ""` idiom (`orEmpty`);
* `append_to_csv` and `to_csv_row`, with the CSV file contents modelled
  as a list of characters and each `time.strftime` clock read made an
  explicit `String` parameter (the source reads the clock separately in
  each of the two functions);
* the Python `csv.writer` escaping discipline (QUOTE_MINIMAL: a field
  is quoted when it contains the delimiter, the quote character or a
  line-terminator character; embedded quotes are doubled; rows end in
  CRLF), together with a matching reader used to state round-trip and
  frame properties;
* the submission handler of the `if submitted:` block: collect all
  validation error messages, abort with no side effect when any is
  present, otherwise build the payload and perform the store append and
  the artifact serialization.

Dates are modelled as year/month/day triples with the lexicographic
order used by Python `datetime.date` comparison, and `isoformat` as
zero-padded `YYYY-MM-DD` rendering.  Python's `\d` and `\s` classes are
modelled by ASCII digits and the standard whitespace code points; the
claims under study only exercise these.
-/

/-- Whitespace characters matched by Python's `\s` on `str` (ASCII
whitespace plus the common Unicode whitespace code points). -/
def isPySpace (c : Char) : Bool :=
  c = ' ' || c = '\t' || c = '\n' || c = '\r' || c = '\x0b' || c = '\x0c' ||
  c = '\x1c' || c = '\x1d' || c = '\x1e' || c = '\x1f' || c = '\x85' || c = '\xa0' ||
  c = ' ' || (0x2000 ≤ c.toNat && c.toNat ≤ 0x200a) ||
  c = ' ' || c = ' ' || c = ' ' || c = ' ' || c = '　'

/-- Python `x or ""`: `None` (and the empty string) collapse to `""`. -/
def orEmpty (o : Option String) : String := o.getD ""

/-- `str.strip()` on a character list: drop whitespace from both ends. -/
def pyStripList (l : List Char) : List Char :=
  ((l.dropWhile isPySpace).reverse.dropWhile isPySpace).reverse

/-- `str.strip()`. -/
def pyStrip (s : String) : String := String.mk (pyStripList s.data)

/-- `clean_phone`: `re.sub(r"\D+", "", p or "")` keeps exactly the digit
characters of the argument (`None` is first collapsed to `""` by the
`or ""` guard, handled by `orEmpty` at call sites). -/
def clean_phone (s : String) : String := String.mk (s.data.filter Char.isDigit)

/-- Is there a `'.'` at some position that still has a character after
it?  (Used for the `[^@\s]+\.[^@\s]+` tail of the e-mail pattern.) -/
def hasDotBeforeEnd : List Char → Bool
  | [] => false
  | [_] => false
  | c :: d :: t => c = '.' || hasDotBeforeEnd (d :: t)

/-- Is there a `'.'` at some position `i` with `1 ≤ i ≤ length - 2`,
i.e. a dot with a nonempty part before it and after it? -/
def hasInnerDot : List Char → Bool
  | [] => false
  | _ :: t => hasDotBeforeEnd t

/-- Does the whole character list match
`^[^@\s]+@[^@\s]+\.[^@\s]+$` (with `$` read as true end of input)?
The part before the first `'@'` must be nonempty and whitespace-free,
everything after it must be free of `'@'` and whitespace and contain an
inner dot splitting it into two nonempty pieces. -/
def emailShapeOk (l : List Char) : Bool :=
  !(l.dropWhile (fun c => c != '@')).isEmpty &&
  !(l.takeWhile (fun c => c != '@')).isEmpty &&
  (l.takeWhile (fun c => c != '@')).all (fun c => !isPySpace c) &&
  ((l.dropWhile (fun c => c != '@')).tail).all (fun c => c != '@' && !isPySpace c) &&
  hasInnerDot ((l.dropWhile (fun c => c != '@')).tail)

/-- Python's `$` anchor matches at the end of the string or just before
one final newline; an anchored match may therefore ignore a single
trailing `'\n'`. -/
def pyDollarTrim (l : List Char) : List Char :=
  match l.getLast? with
  | some c => if c = '\n' then l.dropLast else l
  | none => l

/-- `EMAIL_RE.match(s)` is truthy: the Python-semantics anchored match of
`^[^@\s]+@[^@\s]+\.[^@\s]+$` against the whole string (modulo the
trailing-newline behaviour of `$`). -/
def EMAIL_RE_match (s : String) : Bool := emailShapeOk (pyDollarTrim s.data)

/-- The e-mail pattern `^[^@\s]+@[^@\s]+\.[^@\s]+$` read as a plain
(mathematical) regular-expression full match: the string decomposes as
`a ++ "@" ++ b ++ "." ++ c` with `a`, `b`, `c` nonempty and free of
`'@'` and whitespace. -/
def EmailSpecMatch (l : List Char) : Prop :=
  ∃ a b c : List Char,
    l = a ++ '@' :: (b ++ '.' :: c) ∧ a ≠ [] ∧ b ≠ [] ∧ c ≠ [] ∧
    (∀ x ∈ a, x ≠ '@' ∧ isPySpace x = false) ∧
    (∀ x ∈ b, x ≠ '@' ∧ isPySpace x = false) ∧
    (∀ x ∈ c, x ≠ '@' ∧ isPySpace x = false)

/-- A calendar date as used by `datetime.date`. -/
structure PDate where
  year : Nat
  month : Nat
  day : Nat
deriving DecidableEq, Repr

/-- Python `date` comparison `a < b`: lexicographic on (year, month, day). -/
def pdateLt (a b : PDate) : Bool :=
  a.year < b.year ||
  (a.year = b.year && (a.month < b.month ||
    (a.month = b.month && a.day < b.day)))

/-- Left-pad a numeral string with zeros to width `w`. -/
def padZeros (w : Nat) (s : String) : String :=
  String.mk (List.replicate (w - s.length) '0') ++ s

/-- `date.isoformat()`: `YYYY-MM-DD` with zero padding. -/
def pdateIso (d : PDate) : String :=
  padZeros 4 (toString d.year) ++ "-" ++ padZeros 2 (toString d.month) ++ "-" ++
    padZeros 2 (toString d.day)

/-! ## CSV writing (`csv.writer`, default dialect, QUOTE_MINIMAL) -/

/-- Must this field be quoted?  `csv.writer` quotes a field containing
the delimiter, the quote character or a line-terminator character. -/
def needsQuote (f : List Char) : Bool :=
  f.any (fun c => c = ',' || c = '"' || c = '\r' || c = '\n')

/-- Double every embedded quote character. -/
def escQuotes : List Char → List Char
  | [] => []
  | c :: cs => if c = '"' then '"' :: '"' :: escQuotes cs else c :: escQuotes cs

/-- Render one field: quote it (doubling embedded quotes) exactly when
it needs quoting, else emit it verbatim. -/
def escField (f : List Char) : List Char :=
  if needsQuote f then '"' :: (escQuotes f ++ ['"']) else f

/-- Join rendered fields with the `','` delimiter. -/
def joinFields : List (List Char) → List Char
  | [] => []
  | [f] => escField f
  | f :: g :: t => escField f ++ ',' :: joinFields (g :: t)

/-- One `writer.writerow(fields)` call: delimiter-joined escaped fields
terminated by CRLF (the csv module's default line terminator). -/
def rowChars (fs : List (List Char)) : List Char :=
  joinFields fs ++ ['\r', '\n']

/-- The canonical record built by the submission handler (the `payload`
dict).  The timestamp is not part of it: each serializer reads the
clock itself. -/
structure Payload where
  name : String
  email : String
  phone : String
  channel : String
  activity : String
  notes : String
  start_date : String
  end_date : String
deriving DecidableEq, Repr

/-- The header fields written by both serializers. -/
def headerFields : List (List Char) :=
  ["timestamp".data, "name".data, "email".data, "phone".data, "channel".data,
   "activity".data, "notes".data, "start_date".data, "end_date".data]

/-- The data-row fields for clock reading `ts` and payload `p`, in the
order both serializers emit them. -/
def dataFields (ts : String) (p : Payload) : List (List Char) :=
  [ts.data, p.name.data, p.email.data, p.phone.data, p.channel.data,
   p.activity.data, p.notes.data, p.start_date.data, p.end_date.data]

/-- `append_to_csv(payload)`.  The store (`requests.csv`) is modelled as
`Option (List Char)`: `none` when the file does not exist, `some c`
for existing content `c`.  Opening in append mode writes a header row
first exactly when the file was absent, then one data row whose first
field is the `time.strftime("%Y-%m-%d %H:%M:%S")` clock reading `ts`
taken during this call. -/
def append_to_csv (ts : String) (p : Payload) (store : Option (List Char)) :
    List Char :=
  (match store with
   | none =>
       rowChars ["timestamp".data, "name".data, "email".data, "phone".data,
                 "channel".data, "activity".data, "notes".data,
                 "start_date".data, "end_date".data]
   | some c => c) ++
  rowChars [ts.data, p.name.data, p.email.data, p.phone.data, p.channel.data,
            p.activity.data, p.notes.data, p.start_date.data, p.end_date.data]

/-- `to_csv_row(payload)`: an in-memory buffer holding a header row and
one data row, with `ts` the clock reading `time.strftime` returns
during this call. -/
def to_csv_row (ts : String) (p : Payload) : List Char :=
  rowChars ["timestamp".data, "name".data, "email".data, "phone".data,
            "channel".data, "activity".data, "notes".data,
            "start_date".data, "end_date".data] ++
  rowChars [ts.data, p.name.data, p.email.data, p.phone.data, p.channel.data,
            p.activity.data, p.notes.data, p.start_date.data, p.end_date.data]

/-! ## CSV reading (same delimiter and quoting rule) -/

/-- Read an unquoted field: everything up to the delimiter or a
line-terminator character. -/
def scanUnquoted : List Char → List Char × List Char
  | [] => ([], [])
  | c :: cs =>
      if c = ',' || c = '\r' || c = '\n' then ([], c :: cs)
      else
        let r := scanUnquoted cs
        (c :: r.1, r.2)

/-- Read the body of a quoted field (the opening quote already
consumed): a doubled quote stands for one literal quote, a lone quote
closes the field; `none` on an unterminated field. -/
def scanQuoted : List Char → Option (List Char × List Char)
  | [] => none
  | c :: cs =>
      if c = '"' then
        match cs with
        | [] => some ([], [])
        | d :: ds =>
            if d = '"' then (scanQuoted ds).map (fun r => ('"' :: r.1, r.2))
            else some ([], d :: ds)
      else (scanQuoted cs).map (fun r => (c :: r.1, r.2))

/-- Read one field: quoted when it starts with the quote character,
otherwise unquoted. -/
def parseField : List Char → Option (List Char × List Char)
  | [] => some ([], [])
  | c :: cs => if c = '"' then scanQuoted cs else some (scanUnquoted (c :: cs))

/-- Read a record of exactly `n` comma-separated fields terminated by
CRLF, returning the fields and the rest of the input. -/
def parseRecN : Nat → List Char → Option (List (List Char) × List Char)
  | 0, _ => none
  | 1, s =>
      match parseField s with
      | none => none
      | some (f, r) =>
          match r with
          | x :: y :: rest =>
              if x = '\r' && y = '\n' then some ([f], rest) else none
          | _ => none
  | n + 2, s =>
      match parseField s with
      | none => none
      | some (f, r) =>
          match r with
          | x :: rest =>
              if x = ',' then
                (parseRecN (n + 1) rest).map (fun q => (f :: q.1, q.2))
              else none
          | [] => none

/-- Read a whole store: a sequence of 9-field records consuming all of
the input (`fuel` bounds the number of records). -/
def parseRowsFuel : Nat → List Char → Option (List (List (List Char)))
  | _, [] => some []
  | 0, _ => none
  | fuel + 1, c :: cs =>
      match parseRecN 9 (c :: cs) with
      | none => none
      | some (row, rest) => (parseRowsFuel fuel rest).map (fun rs => row :: rs)

/-- Read a whole store (each record consumes at least one character, so
`s.length` is enough fuel). -/
def parseStore (s : List Char) : Option (List (List (List Char))) :=
  parseRowsFuel s.length s

/-- Store contents holding exactly the given records. -/
def unparseRows (rows : List (List (List Char))) : List Char :=
  (rows.map rowChars).flatten

/-! ## Validation and submission handling -/

def nameMsg : String := "Name is required."
def emailMsg : String := "Enter a valid email address."
def phoneMsg : String := "Enter a valid phone number (at least 7 digits)."
def durMsg : String := "Please select a start and an end date for the duration."
def orderMsg : String := "Start date cannot be after end date."

/-- The raw form input handed to the submission handler.  `email`,
`phone` and `notes` are guarded by `or ""` in the source, so a missing
value is representable as `none`; the duration selector's value is the
tuple of chosen dates (`length ≠ 2` models every non-2-tuple shape). -/
structure RawInput where
  name : String
  email : Option String
  phone : Option String
  channel : String
  activity : String
  notes : Option String
  startEnd : List PDate
deriving Repr

/-- The duration rule: a non-2-tuple selection gets the selection
message; a proper (start, end) pair gets the order message exactly when
start > end.  The order check runs only in the two-value case. -/
def durationErrs (l : List PDate) : List String :=
  match l with
  | [s, e] => if pdateLt e s then [orderMsg] else []
  | _ => [durMsg]

/-- The validation block: every rule runs, every failure message is
appended in order. -/
def validateErrors (inp : RawInput) : List String :=
  (if pyStrip inp.name = "" then [nameMsg] else []) ++
  (if EMAIL_RE_match (orEmpty inp.email) then [] else [emailMsg]) ++
  (if (clean_phone (orEmpty inp.phone)).length < 7 then [phoneMsg] else []) ++
  durationErrs inp.startEnd

/-- The `payload` dict built after validation passes: trimmed name,
e-mail and notes, digits-only phone, pass-through channel and activity,
ISO-formatted dates. -/
def mkPayload (inp : RawInput) (s e : PDate) : Payload :=
  { name := pyStrip inp.name
    email := pyStrip (orEmpty inp.email)
    phone := clean_phone (orEmpty inp.phone)
    channel := inp.channel
    activity := inp.activity
    notes := pyStrip (orEmpty inp.notes)
    start_date := pdateIso s
    end_date := pdateIso e }

/-- Outcome of one submission: either the collected validation errors
(`st.stop()` — nothing written, no artifact), or the payload together
with the new store contents and the download artifact. -/
inductive SubmitResult where
  | rejected (errors : List String)
  | accepted (p : Payload) (newStore : List Char) (artifact : List Char)
deriving DecidableEq, Repr

/-- The `if submitted:` block.  `tsStore` and `tsArtifact` are the two
independent `time.strftime` clock readings taken inside
`append_to_csv` and `to_csv_row` respectively.  The non-two-date
fallback after an empty error list is unreachable (the duration rule
would have produced an error). -/
def handleSubmit (inp : RawInput) (store : Option (List Char))
    (tsStore tsArtifact : String) : SubmitResult :=
  let errs := validateErrors inp
  if errs.isEmpty then
    match inp.startEnd with
    | [s, e] =>
        let p := mkPayload inp s e
        SubmitResult.accepted p (append_to_csv tsStore p store)
          (to_csv_row tsArtifact p)
    | _ => SubmitResult.rejected errs
  else SubmitResult.rejected errs

/-! ## Lemmas: CSV escaping round-trips through the matching reader -/

theorem scanUnquoted_exact (f : List Char) (x : Char) (r : List Char)
    (hf : needsQuote f = false) (hx : x = ',' ∨ x = '\r') :
    scanUnquoted (f ++ x :: r) = (f, x :: r) := by
  induction f with
  | nil =>
      rcases hx with rfl | rfl <;> simp [scanUnquoted]
  | cons c cs ih =>
      have hc : ¬(c = ',') ∧ ¬(c = '\r') ∧ ¬(c = '\n') := by
        refine ⟨?_, ?_, ?_⟩ <;> intro h <;> rw [h] at hf <;>
          simp [needsQuote] at hf
      have hcs : needsQuote cs = false := by
        simp only [needsQuote, List.any_cons, Bool.or_eq_false_iff] at hf
        exact hf.2
      show scanUnquoted (c :: (cs ++ x :: r)) = (c :: cs, x :: r)
      rw [scanUnquoted]
      rw [if_neg (by simp [hc.1, hc.2.1, hc.2.2])]
      simp [ih hcs]

theorem scanQuoted_exact (f : List Char) (r : List Char)
    (hr : r.head? ≠ some '"') :
    scanQuoted (escQuotes f ++ '"' :: r) = some (f, r) := by
  induction f with
  | nil =>
      cases r with
      | nil => simp [escQuotes, scanQuoted]
      | cons d ds =>
          have hd : ¬(d = '"') := by
            intro h
            exact hr (by simp [h])
          simp [escQuotes, scanQuoted, hd]
  | cons c cs ih =>
      by_cases hc : c = '"'
      · subst hc
        simp [escQuotes, scanQuoted, ih]
      · have h1 : escQuotes (c :: cs) ++ '"' :: r = c :: (escQuotes cs ++ '"' :: r) := by
          simp [escQuotes, hc]
        rw [h1, scanQuoted.eq_def]
        simp only []
        rw [if_neg hc, ih]
        rfl

theorem parseField_exact (f : List Char) (x : Char) (r : List Char)
    (hx : x = ',' ∨ x = '\r') :
    parseField (escField f ++ x :: r) = some (f, x :: r) := by
  by_cases hq : needsQuote f = true
  · simp only [escField, if_pos hq, List.cons_append, List.append_assoc,
      List.singleton_append, parseField, if_pos rfl]
    exact scanQuoted_exact f (x :: r) (by rcases hx with rfl | rfl <;> simp)
  · have hq' : needsQuote f = false := by simpa using hq
    rw [escField, if_neg hq]
    cases f with
    | nil =>
        have hx' : ¬(x = '"') := by rcases hx with rfl | rfl <;> decide
        simp only [List.nil_append, parseField, if_neg hx']
        rcases hx with rfl | rfl <;> simp [scanUnquoted]
    | cons c cs =>
        have hc : ¬(c = '"') := by
          intro h
          rw [h] at hq'
          simp [needsQuote] at hq'
        simp only [List.cons_append, parseField, if_neg hc]
        have := scanUnquoted_exact (c :: cs) x r hq' hx
        simpa using this

theorem parseRecN_rowChars (fs : List (List Char)) (rest : List Char)
    (h : fs ≠ []) :
    parseRecN fs.length (rowChars fs ++ rest) = some (fs, rest) := by
  induction fs with
  | nil => exact absurd rfl h
  | cons f t ih =>
      cases t with
      | nil =>
          have harg : rowChars [f] ++ rest = escField f ++ '\r' :: '\n' :: rest := by
            simp [rowChars, joinFields]
          rw [harg]
          show parseRecN 1 _ = _
          rw [parseRecN]
          rw [parseField_exact f '\r' ('\n' :: rest) (Or.inr rfl)]
          simp
      | cons g t' =>
          have harg : rowChars (f :: g :: t') ++ rest =
              escField f ++ ',' :: (rowChars (g :: t') ++ rest) := by
            simp [rowChars, joinFields]
          rw [harg]
          show parseRecN (t'.length + 2) _ = _
          rw [parseRecN]
          rw [parseField_exact f ',' (rowChars (g :: t') ++ rest) (Or.inl rfl)]
          have hih := ih (by simp)
          simp only [List.length_cons] at hih
          simp [hih]

theorem rowChars_ne_nil (fs : List (List Char)) : rowChars fs ≠ [] := by
  simp [rowChars]

theorem unparseRows_cons (r : List (List Char)) (rs : List (List (List Char))) :
    unparseRows (r :: rs) = rowChars r ++ unparseRows rs := by
  simp [unparseRows]

theorem parseRowsFuel_unparse (rows : List (List (List Char))) (fuel : Nat)
    (hlen : ∀ r ∈ rows, r.length = 9) (hfuel : rows.length ≤ fuel) :
    parseRowsFuel fuel (unparseRows rows) = some rows := by
  induction rows generalizing fuel with
  | nil => cases fuel <;> simp [unparseRows, parseRowsFuel]
  | cons row rs ih =>
      cases fuel with
      | zero => simp at hfuel
      | succ k =>
          rw [unparseRows_cons]
          have hne : rowChars row ++ unparseRows rs ≠ [] := by
            intro h
            exact rowChars_ne_nil row (List.append_eq_nil.mp h).1
          obtain ⟨c, cs, hcc⟩ := List.exists_cons_of_ne_nil hne
          rw [hcc]
          have h9 : row.length = 9 := hlen row (by simp)
          have hrec : parseRecN 9 (c :: cs) = some (row, unparseRows rs) := by
            rw [← hcc, ← h9]
            exact parseRecN_rowChars row _ (by intro h; simp [h] at h9)
          rw [parseRowsFuel, hrec]
          show (parseRowsFuel k (unparseRows rs)).map (fun rs => row :: rs) = _
          rw [ih k (fun r hr => hlen r (List.mem_cons_of_mem _ hr))
            (Nat.le_of_succ_le_succ hfuel)]
          rfl

theorem length_le_unparseRows (rows : List (List (List Char))) :
    rows.length ≤ (unparseRows rows).length := by
  induction rows with
  | nil => simp [unparseRows]
  | cons r rs ih =>
      rw [unparseRows_cons]
      have hrow : (rowChars r).length = (joinFields r).length + 2 := by
        simp [rowChars]
      simp only [List.length_cons, List.length_append, hrow]
      omega

theorem parseStore_unparse (rows : List (List (List Char)))
    (hlen : ∀ r ∈ rows, r.length = 9) :
    parseStore (unparseRows rows) = some rows :=
  parseRowsFuel_unparse rows _ hlen (length_le_unparseRows rows)

/-! ## Lemmas: the e-mail shape check is the pattern match -/

theorem dropWhile_head_pred_false {p : Char → Bool} {l : List Char} {y : Char}
    {t : List Char} (h : l.dropWhile p = y :: t) : p y = false := by
  induction l with
  | nil => simp at h
  | cons c cs ih =>
      rw [List.dropWhile_cons] at h
      by_cases hc : p c = true
      · rw [if_pos hc] at h
        exact ih h
      · rw [if_neg hc] at h
        injection h with h1 h2
        subst h1
        simpa using hc

theorem takeWhile_append_cons {p : Char → Bool} (a : List Char) (y : Char)
    (r : List Char) (ha : ∀ x ∈ a, p x = true) (hy : p y = false) :
    (a ++ y :: r).takeWhile p = a ∧ (a ++ y :: r).dropWhile p = y :: r := by
  induction a with
  | nil => simp [List.takeWhile_cons, List.dropWhile_cons, hy]
  | cons c cs ih =>
      have hc : p c = true := ha c (by simp)
      have ih' := ih (fun x hx => ha x (List.mem_cons_of_mem _ hx))
      simp [List.takeWhile_cons, List.dropWhile_cons, hc, ih'.1, ih'.2]

theorem hasDotBeforeEnd_iff (l : List Char) :
    hasDotBeforeEnd l = true ↔ ∃ b c, l = b ++ '.' :: c ∧ c ≠ [] := by
  induction l with
  | nil =>
      simp only [hasDotBeforeEnd, Bool.false_eq_true, false_iff]
      rintro ⟨b, c, hbc, hc⟩
      exact absurd hbc.symm (by simp)
  | cons x t ih =>
      cases t with
      | nil =>
          simp only [hasDotBeforeEnd, Bool.false_eq_true, false_iff]
          rintro ⟨b, c, hbc, hc⟩
          rcases b with _ | ⟨v, b'⟩
          · simp only [List.nil_append] at hbc
            injection hbc with h1 h2
            exact hc h2.symm
          · simp only [List.cons_append] at hbc
            injection hbc with h1 h2
            exact absurd h2.symm (by simp)
      | cons d t' =>
          rw [hasDotBeforeEnd]
          constructor
          · intro h
            have h' : x = '.' ∨ hasDotBeforeEnd (d :: t') = true := by
              simpa using h
            rcases h' with h1 | h2
            · exact ⟨[], d :: t', by simp [h1], by simp⟩
            · obtain ⟨b, c, hbc, hc⟩ := ih.mp h2
              exact ⟨x :: b, c, by rw [List.cons_append, ← hbc], hc⟩
          · rintro ⟨b, c, hbc, hc⟩
            rcases b with _ | ⟨v, b'⟩
            · simp only [List.nil_append] at hbc
              injection hbc with h1 h2
              simp [h1]
            · simp only [List.cons_append] at hbc
              injection hbc with h1 h2
              have : hasDotBeforeEnd (d :: t') = true := ih.mpr ⟨b', c, h2, hc⟩
              simp [this]

theorem emailShapeOk_iff (l : List Char) :
    emailShapeOk l = true ↔ EmailSpecMatch l := by
  constructor
  · intro h
    obtain ⟨⟨⟨⟨hr, ha1⟩, ha2⟩, ht⟩, hdot⟩ :=
      by simpa only [emailShapeOk, Bool.and_eq_true] using h
    rcases hdw : l.dropWhile (fun c => c != '@') with _ | ⟨y, t⟩
    · rw [hdw] at hr
      simp at hr
    · have hy : y = '@' := by
        have := dropWhile_head_pred_false hdw
        simpa using this
      have hl : l = (l.takeWhile (fun c => c != '@')) ++ '@' :: t := by
        conv_lhs => rw [← List.takeWhile_append_dropWhile (fun c => c != '@') l]
        rw [hdw, hy]
      rw [hdw] at ht hdot
      simp only [List.tail_cons] at ht hdot
      have htP : ∀ z ∈ t, z ≠ '@' ∧ isPySpace z = false := by
        intro z hz
        have hzz := (List.all_eq_true.mp ht) z hz
        have hzz' : (z != '@') = true ∧ (!isPySpace z) = true := by simpa using hzz
        exact ⟨by simpa using hzz'.1, by simpa using hzz'.2⟩
      rcases t with _ | ⟨x, t2⟩
      · simp [hasInnerDot] at hdot
      · have hdbe : hasDotBeforeEnd t2 = true := by
          simpa [hasInnerDot] using hdot
        obtain ⟨b0, c0, hbc, hc0⟩ := (hasDotBeforeEnd_iff t2).mp hdbe
        refine ⟨l.takeWhile (fun c => c != '@'), x :: b0, c0, ?_, ?_, by simp,
          hc0, ?_, ?_, ?_⟩
        · conv_lhs => rw [hl]
          rw [hbc]
          simp
        · intro hempty
          rw [hempty] at ha1
          simp at ha1
        · intro z hz
          refine ⟨by simpa using List.mem_takeWhile_imp hz, ?_⟩
          have := (List.all_eq_true.mp ha2) z hz
          simpa using this
        · intro z hz
          rcases List.mem_cons.mp hz with rfl | hz'
          · exact htP z (by simp)
          · refine htP z ?_
            rw [hbc]
            exact List.mem_cons_of_mem _ (List.mem_append_left _ hz')
        · intro z hz
          refine htP z ?_
          rw [hbc]
          exact List.mem_cons_of_mem _ (List.mem_append_right _
            (List.mem_cons_of_mem _ hz))
  · rintro ⟨a, b, c, rfl, hA, hB, hC, hca, hcb, hcc⟩
    have hpa : ∀ z ∈ a, ((z != '@') = true) := fun z hz => by
      simpa using (hca z hz).1
    have hpat : (('@' : Char) != '@') = false := by decide
    obtain ⟨htw, hdw⟩ := takeWhile_append_cons a '@' (b ++ '.' :: c) hpa hpat
    simp only [emailShapeOk, htw, hdw, List.tail_cons, Bool.and_eq_true]
    refine ⟨⟨⟨⟨by simp, ?_⟩, ?_⟩, ?_⟩, ?_⟩
    · rcases a with _ | ⟨u, a'⟩
      · exact absurd rfl hA
      · simp
    · rw [List.all_eq_true]
      intro z hz
      simpa using (hca z hz).2
    · rw [List.all_eq_true]
      intro z hz
      rcases List.mem_append.mp hz with hzb | hzc
      · have hzok := hcb z hzb
        simp [Bool.and_eq_true, hzok.1, hzok.2]
      · rcases List.mem_cons.mp hzc with rfl | hz2
        · decide
        · have hzok := hcc z hz2
          simp [Bool.and_eq_true, hzok.1, hzok.2]
    · rcases b with _ | ⟨u, b'⟩
      · exact absurd rfl hB
      · show hasInnerDot (u :: (b' ++ '.' :: c)) = true
        simp only [hasInnerDot]
        exact (hasDotBeforeEnd_iff _).mpr ⟨b', c, rfl, hC⟩

theorem EMAIL_RE_match_iff (s : String) :
    EMAIL_RE_match s = true ↔ EmailSpecMatch (pyDollarTrim s.data) :=
  emailShapeOk_iff (pyDollarTrim s.data)

/-! ## Lemmas: validator membership and the submission handler -/

theorem mem_ite_singleton {c : Prop} [Decidable c] {m x : String} :
    m ∈ (if c then [x] else ([] : List String)) ↔ m = x ∧ c := by
  split <;> simp_all

theorem mem_ite_nil_singleton {c : Prop} [Decidable c] {m x : String} :
    m ∈ (if c then ([] : List String) else [x]) ↔ m = x ∧ ¬c := by
  split <;> simp_all

theorem mem_durationErrs (m : String) (l : List PDate) :
    m ∈ durationErrs l ↔
      (m = orderMsg ∧ ∃ s e, l = [s, e] ∧ pdateLt e s = true) ∨
      (m = durMsg ∧ l.length ≠ 2) := by
  match l with
  | [] => simp [durationErrs]
  | [s] => simp [durationErrs]
  | [s, e] =>
      by_cases h : pdateLt e s = true
      · simp only [durationErrs, if_pos h, List.mem_singleton]
        constructor
        · rintro rfl
          exact Or.inl ⟨rfl, s, e, rfl, h⟩
        · rintro (⟨rfl, s', e', hse, hlt⟩ | ⟨rfl, hlen⟩)
          · rfl
          · simp at hlen
      · simp only [durationErrs, if_neg h, List.not_mem_nil, false_iff]
        rintro (⟨rfl, s', e', hse, hlt⟩ | ⟨rfl, hlen⟩)
        · injection hse with h1 h2
          injection h2 with h2 h3
          subst h1
          subst h2
          exact h hlt
        · simp at hlen
  | s :: e :: x :: t => simp [durationErrs]

theorem mem_validateErrors (inp : RawInput) (m : String) :
    m ∈ validateErrors inp ↔
      (m = nameMsg ∧ pyStrip inp.name = "") ∨
      (m = emailMsg ∧ EMAIL_RE_match (orEmpty inp.email) = false) ∨
      (m = phoneMsg ∧ (clean_phone (orEmpty inp.phone)).length < 7) ∨
      (m = orderMsg ∧ ∃ s e, inp.startEnd = [s, e] ∧ pdateLt e s = true) ∨
      (m = durMsg ∧ inp.startEnd.length ≠ 2) := by
  simp only [validateErrors, List.mem_append, mem_ite_singleton,
    mem_ite_nil_singleton, mem_durationErrs, Bool.not_eq_true]
  rw [or_assoc, or_assoc]

theorem validateErrors_eq_nil_iff (inp : RawInput) :
    validateErrors inp = [] ↔
      pyStrip inp.name ≠ "" ∧ EMAIL_RE_match (orEmpty inp.email) = true ∧
      7 ≤ (clean_phone (orEmpty inp.phone)).length ∧
      ∃ s e, inp.startEnd = [s, e] ∧ pdateLt e s = false := by
  constructor
  · intro h
    have hmem : ∀ m : String, m ∉ validateErrors inp := by
      intro m hm
      rw [h] at hm
      simp at hm
    have hn := hmem nameMsg
    have he := hmem emailMsg
    have hp := hmem phoneMsg
    have ho := hmem orderMsg
    have hd := hmem durMsg
    rw [mem_validateErrors] at hn he hp ho hd
    refine ⟨fun hh => hn (Or.inl ⟨rfl, hh⟩), ?_, ?_, ?_⟩
    · cases hE : EMAIL_RE_match (orEmpty inp.email)
      · exact absurd (Or.inr (Or.inl ⟨rfl, hE⟩)) he
      · rfl
    · exact Nat.le_of_not_lt
        (fun hh => hp (Or.inr (Or.inr (Or.inl ⟨rfl, hh⟩))))
    · have hlen : inp.startEnd.length = 2 := by
        by_contra hne
        exact hd (Or.inr (Or.inr (Or.inr (Or.inr ⟨rfl, hne⟩))))
      rcases hse : inp.startEnd with _ | ⟨s, t⟩
      · rw [hse] at hlen
        simp at hlen
      · rcases t with _ | ⟨e, t'⟩
        · rw [hse] at hlen
          simp at hlen
        · rcases t' with _ | ⟨u, t''⟩
          · refine ⟨s, e, rfl, ?_⟩
            cases hO : pdateLt e s
            · rfl
            · exact absurd
                (Or.inr (Or.inr (Or.inr (Or.inl ⟨rfl, s, e, hse, hO⟩)))) ho
          · rw [hse] at hlen
            simp at hlen
  · rintro ⟨hn, he, hp, s, e, hse, ho⟩
    rw [validateErrors]
    rw [if_neg hn, if_pos he, if_neg (Nat.not_lt.mpr hp), hse]
    simp [durationErrs, ho]

theorem handleSubmit_of_errors (inp : RawInput) (store : Option (List Char))
    (ts1 ts2 : String) (h : validateErrors inp ≠ []) :
    handleSubmit inp store ts1 ts2 = SubmitResult.rejected (validateErrors inp) := by
  have hfalse : (validateErrors inp).isEmpty = false := List.isEmpty_eq_false.mpr h
  simp [handleSubmit, hfalse]

theorem handleSubmit_accepted_inv (inp : RawInput) (store : Option (List Char))
    (ts1 ts2 : String) (p : Payload) (ns art : List Char)
    (h : handleSubmit inp store ts1 ts2 = SubmitResult.accepted p ns art) :
    validateErrors inp = [] ∧ ∃ s e, inp.startEnd = [s, e] ∧
      p = mkPayload inp s e ∧ ns = append_to_csv ts1 p store ∧
      art = to_csv_row ts2 p := by
  by_cases hv : (validateErrors inp).isEmpty = true
  · have hvnil : validateErrors inp = [] := List.isEmpty_iff.mp hv
    refine ⟨hvnil, ?_⟩
    obtain ⟨-, -, -, s, e, hse, -⟩ := (validateErrors_eq_nil_iff inp).mp hvnil
    rw [handleSubmit] at h
    simp only [hv, if_true, hse] at h
    obtain ⟨hp, hns, hart⟩ := by simpa using h
    exact ⟨s, e, hse, hp.symm, by rw [← hp, ← hns], by rw [← hp, ← hart]⟩
  · rw [handleSubmit] at h
    simp [hv] at h

theorem pdateLt_false_iff (s e : PDate) :
    pdateLt e s = false ↔ (pdateLt s e = true ∨ s = e) := by
  rcases s with ⟨y1, m1, d1⟩
  rcases e with ⟨y2, m2, d2⟩
  simp only [pdateLt, PDate.mk.injEq, Bool.or_eq_false_iff, Bool.or_eq_true,
    Bool.and_eq_false_iff, Bool.and_eq_true, decide_eq_false_iff_not,
    decide_eq_true_eq]
  omega

theorem nameMsg_mem_iff (inp : RawInput) :
    nameMsg ∈ validateErrors inp ↔ pyStrip inp.name = "" := by
  simp [mem_validateErrors, nameMsg, emailMsg, phoneMsg, orderMsg, durMsg]

theorem emailMsg_mem_iff (inp : RawInput) :
    emailMsg ∈ validateErrors inp ↔
      EMAIL_RE_match (orEmpty inp.email) = false := by
  simp [mem_validateErrors, nameMsg, emailMsg, phoneMsg, orderMsg, durMsg]

theorem phoneMsg_mem_iff (inp : RawInput) :
    phoneMsg ∈ validateErrors inp ↔
      (clean_phone (orEmpty inp.phone)).length < 7 := by
  simp [mem_validateErrors, nameMsg, emailMsg, phoneMsg, orderMsg, durMsg]

theorem orderMsg_mem_iff (inp : RawInput) :
    orderMsg ∈ validateErrors inp ↔
      ∃ s e, inp.startEnd = [s, e] ∧ pdateLt e s = true := by
  simp [mem_validateErrors, nameMsg, emailMsg, phoneMsg, orderMsg, durMsg]

theorem durMsg_mem_iff (inp : RawInput) :
    durMsg ∈ validateErrors inp ↔ inp.startEnd.length ≠ 2 := by
  simp [mem_validateErrors, nameMsg, emailMsg, phoneMsg, orderMsg, durMsg]

/-! ## Concrete inputs used by the witnesses and counterexamples -/

/-- A canonical record as produced by end-to-end scenario 1 of the spec. -/
def p0 : Payload :=
  { name := "Jane Doe", email := "jane@store.com", phone := "14165550123",
    channel := "retail", activity := "SEO", notes := "",
    start_date := "2024-01-01", end_date := "2024-01-08" }

/-- End-to-end scenario 2 of the spec: empty name, malformed e-mail,
short phone, reversed dates. -/
def scenario2 : RawInput :=
  { name := "", email := some "not-an-email", phone := some "123",
    channel := "retail", activity := "SEO", notes := some "",
    startEnd := [⟨2024, 2, 10⟩, ⟨2024, 2, 1⟩] }

/-- End-to-end scenario 1 of the spec: a fully valid submission. -/
def inpOk : RawInput :=
  { name := "Jane Doe", email := some "jane@store.com",
    phone := some "+1 416 555 0123", channel := "retail", activity := "SEO",
    notes := some "", startEnd := [⟨2024, 1, 1⟩, ⟨2024, 1, 8⟩]}

/-- An input whose phone value passes the phone rule. -/
def inpPhoneOk : RawInput :=
  { name := "", email := none, phone := some "+1 416 555 0123",
    channel := "retail", activity := "SEO", notes := none, startEnd := [] }

/-- An e-mail with one trailing newline: Python's `$` still matches. -/
def inpNl : RawInput :=
  { name := "x", email := some "a@b.c\n", phone := none,
    channel := "retail", activity := "SEO", notes := none, startEnd := [] }

/-- An input with a malformed e-mail value. -/
def inpBadEmail : RawInput :=
  { name := "x", email := some "not-an-email", phone := none,
    channel := "retail", activity := "SEO", notes := none, startEnd := [] }

/-- An input with every optional text field absent. -/
def inpNone : RawInput :=
  { name := "", email := none, phone := none, channel := "", activity := "",
    notes := none, startEnd := [] }

/-! ## Claim theorems -/

/-- C1, counterexample: the artifact is serialized with its own
`time.strftime` clock reading, so when the two clock reads differ by one
second the artifact's data row is not byte-identical to the row just
appended to the store (the timestamp fields differ). -/
theorem c1_counterexample :
    to_csv_row "2024-01-01 00:00:01" p0 ≠
      rowChars headerFields ++
        (append_to_csv "2024-01-01 00:00:00" p0 (some [])).drop
          ([] : List Char).length := by
  decide

/-- C1, amended: when both serializers observe the same clock reading
`ts`, the response artifact is exactly the store's header row followed
by the very bytes `append_to_csv` appended; the artifact's header row
always equals the header row written to a fresh store. -/
theorem c1_artifact_mirrors_store (p : Payload) (ts : String) (c : List Char) :
    to_csv_row ts p =
      rowChars headerFields ++ (append_to_csv ts p (some c)).drop c.length ∧
    (append_to_csv ts p (some c)).take c.length = c ∧
    append_to_csv ts p none = rowChars headerFields ++ rowChars (dataFields ts p) ∧
    to_csv_row ts p = rowChars headerFields ++ rowChars (dataFields ts p) := by
  refine ⟨?_, ?_, rfl, rfl⟩
  · show to_csv_row ts p =
      rowChars headerFields ++ (c ++ rowChars (dataFields ts p)).drop c.length
    rw [List.drop_left]
    rfl
  · show (c ++ rowChars (dataFields ts p)).take c.length = c
    exact List.take_left c _

/-- C3, counterexample: `to_csv_row` reads the clock itself, so two
calls on the same canonical record with clock readings one second apart
give different bytes. -/
theorem c3_counterexample :
    to_csv_row "2024-01-01 00:00:00" p0 ≠ to_csv_row "2024-01-01 00:00:01" p0 := by
  decide

/-- C3, amended: serialization is deterministic in the canonical record
and the clock reading — two calls observing the same timestamp give
byte-identical output — and two calls with different clock readings
produce artifacts whose parsed rows agree on every field except the
timestamp. -/
theorem c3_serializer_deterministic (p : Payload) (ts1 ts2 : String) :
    (ts1 = ts2 → to_csv_row ts1 p = to_csv_row ts2 p) ∧
    parseStore (to_csv_row ts1 p) = some [headerFields, dataFields ts1 p] ∧
    (dataFields ts1 p).tail = (dataFields ts2 p).tail := by
  refine ⟨fun h => by rw [h], ?_, rfl⟩
  have hrw : to_csv_row ts1 p = unparseRows [headerFields, dataFields ts1 p] := by
    show rowChars headerFields ++ rowChars (dataFields ts1 p) = _
    simp [unparseRows]
  rw [hrw]
  refine parseStore_unparse _ ?_
  intro r hr
  rcases List.mem_cons.mp hr with rfl | hr2
  · decide
  · rcases List.mem_singleton.mp hr2 with rfl
    rfl

/-- C3 witness: with equal clock readings the two serializer calls on
`p0` agree. -/
theorem c3_witness :
    to_csv_row "2024-01-01 00:00:00" p0 = to_csv_row "2024-01-01 00:00:00" p0 :=
  (c3_serializer_deterministic p0 "2024-01-01 00:00:00" "2024-01-01 00:00:00").1 rfl

/-- C8: appending to an existing store leaves every previously stored
record unchanged, in order, and adds exactly one record; appending to an
absent store first creates the header row and then the one data row;
at the byte level the previous contents are an unchanged prefix and the
suffix is exactly one CSV row. -/
theorem c8_append_frame (rows : List (List (List Char))) (ts : String)
    (p : Payload) (c : List Char) (hlen : ∀ r ∈ rows, r.length = 9) :
    parseStore (append_to_csv ts p (some (unparseRows rows))) =
      some (rows ++ [dataFields ts p]) ∧
    parseStore (append_to_csv ts p none) =
      some [headerFields, dataFields ts p] ∧
    (append_to_csv ts p (some c)).take c.length = c ∧
    (append_to_csv ts p (some c)).drop c.length = rowChars (dataFields ts p) := by
  refine ⟨?_, ?_, ?_, ?_⟩
  · have h1 : append_to_csv ts p (some (unparseRows rows)) =
        unparseRows (rows ++ [dataFields ts p]) := by
      show unparseRows rows ++ rowChars (dataFields ts p) = _
      simp [unparseRows]
    rw [h1]
    refine parseStore_unparse _ ?_
    intro r hr
    rcases List.mem_append.mp hr with h | h
    · exact hlen r h
    · rcases List.mem_singleton.mp h with rfl
      rfl
  · have h2 : append_to_csv ts p none =
        unparseRows [headerFields, dataFields ts p] := by
      show rowChars headerFields ++ rowChars (dataFields ts p) = _
      simp [unparseRows]
    rw [h2]
    refine parseStore_unparse _ ?_
    intro r hr
    rcases List.mem_cons.mp hr with rfl | hr2
    · decide
    · rcases List.mem_singleton.mp hr2 with rfl
      rfl
  · show (c ++ rowChars (dataFields ts p)).take c.length = c
    exact List.take_left c _
  · show (c ++ rowChars (dataFields ts p)).drop c.length = rowChars (dataFields ts p)
    exact List.drop_left c _

/-- C8 witness: appending `p0` to a store holding just the header row. -/
theorem c8_witness :
    parseStore (append_to_csv "2024-01-01 00:00:00" p0
        (some (unparseRows [headerFields]))) =
      some ([headerFields] ++ [dataFields "2024-01-01 00:00:00" p0]) ∧
    parseStore (append_to_csv "2024-01-01 00:00:00" p0 none) =
      some [headerFields, dataFields "2024-01-01 00:00:00" p0] ∧
    (append_to_csv "2024-01-01 00:00:00" p0 (some [])).take
      ([] : List Char).length = [] ∧
    (append_to_csv "2024-01-01 00:00:00" p0 (some [])).drop
      ([] : List Char).length =
      rowChars (dataFields "2024-01-01 00:00:00" p0) :=
  c8_append_frame [headerFields] "2024-01-01 00:00:00" p0 [] (by decide)

/-- C9: the data row written for any canonical record — whatever commas,
quotes or newlines its fields contain — re-parses under the same
delimiter and quoting rule to exactly the original nine field values in
the original order, consuming the whole row. -/
theorem c9_row_round_trip (ts : String) (p : Payload) :
    parseRecN 9 (rowChars (dataFields ts p)) = some (dataFields ts p, []) := by
  have h := parseRecN_rowChars (dataFields ts p) [] (by simp [dataFields])
  rw [List.append_nil] at h
  simpa [dataFields] using h

/-- C2: each of the four validation rules contributes its message
independently of the others; a non-empty error list makes the handler
stop with exactly those errors and no store write or artifact; scenario
2 of the spec yields exactly the four expected messages, in order, and
is rejected. -/
theorem c2_collect_all_and_abort :
    (∀ inp store ts1 ts2, validateErrors inp ≠ [] →
        handleSubmit inp store ts1 ts2 =
          SubmitResult.rejected (validateErrors inp)) ∧
    (∀ inp, nameMsg ∈ validateErrors inp ↔ pyStrip inp.name = "") ∧
    (∀ inp, emailMsg ∈ validateErrors inp ↔
        EMAIL_RE_match (orEmpty inp.email) = false) ∧
    (∀ inp, phoneMsg ∈ validateErrors inp ↔
        (clean_phone (orEmpty inp.phone)).length < 7) ∧
    (∀ inp (s e : PDate), inp.startEnd = [s, e] →
        (orderMsg ∈ validateErrors inp ↔ pdateLt e s = true)) ∧
    validateErrors scenario2 = [nameMsg, emailMsg, phoneMsg, orderMsg] ∧
    (∀ store ts1 ts2, handleSubmit scenario2 store ts1 ts2 =
        SubmitResult.rejected [nameMsg, emailMsg, phoneMsg, orderMsg]) := by
  have hscen : validateErrors scenario2 =
      [nameMsg, emailMsg, phoneMsg, orderMsg] := by decide
  refine ⟨handleSubmit_of_errors, nameMsg_mem_iff, emailMsg_mem_iff,
    phoneMsg_mem_iff, ?_, hscen, ?_⟩
  · intro inp s e hse
    rw [orderMsg_mem_iff]
    constructor
    · rintro ⟨s', e', hse', hlt⟩
      rw [hse] at hse'
      injection hse' with h1 h2
      injection h2 with h2 h3
      subst h1
      subst h2
      exact hlt
    · intro h
      exact ⟨s, e, hse, h⟩
  · intro store ts1 ts2
    rw [handleSubmit_of_errors scenario2 store ts1 ts2 (by rw [hscen]; simp), hscen]

/-- C2 witness: scenario 2 is rejected with its validation errors. -/
theorem c2_witness :
    handleSubmit scenario2 none "2024-02-10 09:00:00" "2024-02-10 09:00:01" =
      SubmitResult.rejected (validateErrors scenario2) :=
  c2_collect_all_and_abort.1 scenario2 none "2024-02-10 09:00:00"
    "2024-02-10 09:00:01" (by decide)

/-- C4: the phone rule passes exactly when the digits kept from the raw
value number at least 7; the spec's two examples clean as stated. -/
theorem c4_phone_rule (inp : RawInput) :
    (phoneMsg ∉ validateErrors inp ↔
      7 ≤ (clean_phone (orEmpty inp.phone)).length) ∧
    clean_phone "+1 416 555 0123" = "14165550123" ∧
    clean_phone "555-12" = "55512" := by
  refine ⟨?_, by decide, by decide⟩
  rw [phoneMsg_mem_iff]
  exact ⟨fun h => Nat.le_of_not_lt h, fun h => Nat.not_lt.mpr h⟩

/-- C4 witness: the spec's example phone value passes the rule. -/
theorem c4_witness : phoneMsg ∉ validateErrors inpPhoneOk :=
  (c4_phone_rule inpPhoneOk).1.mpr (by decide)

/-- C5, counterexample: because Python's `$` anchor also matches just
before a final newline, the raw value `"a@b.c\n"` is accepted by the
validator although it does not match the pattern
`^[^@\s]+@[^@\s]+\.[^@\s]+$` (it contains whitespace). -/
theorem c5_counterexample :
    EMAIL_RE_match "a@b.c\n" = true ∧
    ¬ EmailSpecMatch ("a@b.c\n".data) ∧
    emailMsg ∉ validateErrors inpNl := by
  refine ⟨by decide, ?_, ?_⟩
  · intro h
    exact absurd ((emailShapeOk_iff _).mpr h) (by decide)
  · rw [emailMsg_mem_iff]
    decide

/-- C5, amended: the validator accepts a raw e-mail exactly when the
value with at most one trailing newline removed matches the pattern
`^[^@\s]+@[^@\s]+\.[^@\s]+$` (acceptance independent of case and
length); rejection contributes exactly the e-mail message. -/
theorem c5_email_rule (inp : RawInput) :
    (emailMsg ∈ validateErrors inp ↔
      ¬ EmailSpecMatch (pyDollarTrim (orEmpty inp.email).data)) ∧
    (EMAIL_RE_match (orEmpty inp.email) = true ↔
      EmailSpecMatch (pyDollarTrim (orEmpty inp.email).data)) := by
  have hiff := EMAIL_RE_match_iff (orEmpty inp.email)
  refine ⟨?_, hiff⟩
  rw [emailMsg_mem_iff]
  constructor
  · intro h hm
    rw [hiff.mpr hm] at h
    cases h
  · intro h
    cases hE : EMAIL_RE_match (orEmpty inp.email)
    · rfl
    · exact absurd (hiff.mp hE) h

/-- C5 witness: a malformed e-mail is rejected with the e-mail message. -/
theorem c5_witness : emailMsg ∈ validateErrors inpBadEmail :=
  (c5_email_rule inpBadEmail).1.mpr
    (fun h => absurd ((emailShapeOk_iff _).mpr h) (by decide))

/-- C6: a duration that is not exactly two dates yields the selection
message and never the order message; with exactly two dates the
selection message cannot occur and the order message occurs exactly when
start > end — equivalently, it passes whenever start ≤ end, including
start = end (the order on dates is total). -/
theorem c6_duration_rule (inp : RawInput) :
    (inp.startEnd.length ≠ 2 →
      durMsg ∈ validateErrors inp ∧ orderMsg ∉ validateErrors inp) ∧
    (∀ s e : PDate, inp.startEnd = [s, e] →
      durMsg ∉ validateErrors inp ∧
      (orderMsg ∈ validateErrors inp ↔ pdateLt e s = true)) ∧
    (∀ s e : PDate, pdateLt e s = false ↔ (pdateLt s e = true ∨ s = e)) := by
  refine ⟨?_, ?_, pdateLt_false_iff⟩
  · intro h
    refine ⟨durMsg_mem_iff inp |>.mpr h, ?_⟩
    rw [orderMsg_mem_iff]
    rintro ⟨s, e, hse, -⟩
    rw [hse] at h
    simp at h
  · intro s e hse
    constructor
    · rw [durMsg_mem_iff, hse]
      simp
    · rw [orderMsg_mem_iff]
      constructor
      · rintro ⟨s', e', hse', hlt⟩
        rw [hse] at hse'
        injection hse' with h1 h2
        injection h2 with h2 h3
        subst h1
        subst h2
        exact hlt
      · intro h
        exact ⟨s, e, hse, h⟩

/-- C6 witness: scenario 2's reversed dates trigger the order message
and not the selection message. -/
theorem c6_witness :
    durMsg ∉ validateErrors scenario2 ∧
    (orderMsg ∈ validateErrors scenario2 ↔
      pdateLt ⟨2024, 2, 1⟩ ⟨2024, 2, 10⟩ = true) :=
  (c6_duration_rule scenario2).2.1 ⟨2024, 2, 10⟩ ⟨2024, 2, 1⟩ rfl

/-- C7: any record that reaches the store writer — i.e. any accepted
submission — has a digits-only phone of length at least 7, and its
start date is not after its end date (with the payload's date strings
being exactly the ISO renderings of those two dates). -/
theorem c7_persisted_invariant (inp : RawInput) (store : Option (List Char))
    (ts1 ts2 : String) (p : Payload) (ns art : List Char)
    (h : handleSubmit inp store ts1 ts2 = SubmitResult.accepted p ns art) :
    p.phone.data.all Char.isDigit = true ∧ 7 ≤ p.phone.length ∧
    ∃ s e : PDate, inp.startEnd = [s, e] ∧ pdateLt e s = false ∧
      p.start_date = pdateIso s ∧ p.end_date = pdateIso e := by
  obtain ⟨hnil, s, e, hse, hp, -, -⟩ :=
    handleSubmit_accepted_inv inp store ts1 ts2 p ns art h
  obtain ⟨-, -, hlen7, s', e', hse', hord⟩ :=
    (validateErrors_eq_nil_iff inp).mp hnil
  rw [hse] at hse'
  injection hse' with h1 h2
  injection h2 with h2 h3
  subst h1
  subst h2
  subst hp
  refine ⟨?_, hlen7, s, e, hse, hord, rfl, rfl⟩
  show ((orEmpty inp.phone).data.filter Char.isDigit).all Char.isDigit = true
  rw [List.all_eq_true]
  intro z hz
  exact (List.mem_filter.mp hz).2

/-- C7 witness: scenario 1's accepted submission satisfies the
invariant. -/
theorem c7_witness :
    (mkPayload inpOk ⟨2024, 1, 1⟩ ⟨2024, 1, 8⟩).phone.data.all Char.isDigit = true ∧
    7 ≤ (mkPayload inpOk ⟨2024, 1, 1⟩ ⟨2024, 1, 8⟩).phone.length ∧
    ∃ s e : PDate, inpOk.startEnd = [s, e] ∧ pdateLt e s = false ∧
      (mkPayload inpOk ⟨2024, 1, 1⟩ ⟨2024, 1, 8⟩).start_date = pdateIso s ∧
      (mkPayload inpOk ⟨2024, 1, 1⟩ ⟨2024, 1, 8⟩).end_date = pdateIso e :=
  c7_persisted_invariant inpOk none "2024-01-01 09:00:00" "2024-01-01 09:00:00"
    (mkPayload inpOk ⟨2024, 1, 1⟩ ⟨2024, 1, 8⟩)
    (append_to_csv "2024-01-01 09:00:00" (mkPayload inpOk ⟨2024, 1, 1⟩ ⟨2024, 1, 8⟩) none)
    (to_csv_row "2024-01-01 09:00:00" (mkPayload inpOk ⟨2024, 1, 1⟩ ⟨2024, 1, 8⟩))
    (by rfl)

/-- C10: a missing (`None`) or empty raw e-mail or phone value is
collapsed to the empty string by the `or ""` guards, the e-mail check
then runs against `""` and the phone cleaner returns `""`, so the
validator totally produces the corresponding error messages instead of
failing. -/
theorem c10_absent_inputs (inp : RawInput) :
    orEmpty none = "" ∧ clean_phone "" = "" ∧ EMAIL_RE_match "" = false ∧
    ((inp.email = none ∨ inp.email = some "") →
      orEmpty inp.email = "" ∧ emailMsg ∈ validateErrors inp) ∧
    ((inp.phone = none ∨ inp.phone = some "") →
      clean_phone (orEmpty inp.phone) = "" ∧ phoneMsg ∈ validateErrors inp) := by
  refine ⟨rfl, rfl, by decide, ?_, ?_⟩
  · intro h
    have he : orEmpty inp.email = "" := by
      rcases h with h | h <;> rw [h] <;> rfl
    refine ⟨he, ?_⟩
    rw [emailMsg_mem_iff, he]
    decide
  · intro h
    have hp : orEmpty inp.phone = "" := by
      rcases h with h | h <;> rw [h] <;> rfl
    refine ⟨by rw [hp]; rfl, ?_⟩
    rw [phoneMsg_mem_iff, hp]
    decide

/-- C10 witness: the all-absent input is treated as empty strings and
rejected with the e-mail and phone messages. -/
theorem c10_witness :
    (orEmpty inpNone.email = "" ∧ emailMsg ∈ validateErrors inpNone) ∧
    (clean_phone (orEmpty inpNone.phone) = "" ∧
      phoneMsg ∈ validateErrors inpNone) :=
  ⟨(c10_absent_inputs inpNone).2.2.2.1 (Or.inl rfl),
   (c10_absent_inputs inpNone).2.2.2.2 (Or.inl rfl)⟩
